import Mathlib

/-!
Verification development for the sc-metrics-agent repository.

Shallow embedding of the core pure logic of the agent:
the VM identity resolver (pkg/config/config.go), the configuration
validator (pkg/config/config.go), the write-client construction and
retry loop (pkg/clients/tsclient, also present as src/unnamed/part_006),
the metadata token cache (pkg/clients/metadata, src/unnamed/part_005),
the collector registry constructor (pkg/collector/node.go), the metric
decorator (pkg/decorator in processor.go), and the aggregator
(pkg/aggregate/aggregate.go).

Modelling conventions:
- Go durations and instants are integers (milliseconds).
- Go float64 payload values are an abstract type V: the embedded code
  never computes with them, it only moves them around; the two places
  the source converts or formats them (uint64-to-float64 for histogram
  and summary counts, the %g rendering of bucket bounds and quantiles)
  become explicit parameters ofNat : Nat -> V and fmtG : V -> String.
- Go maps with string keys are association lists with unique keys kept
  by construction (mapSet overwrites an existing key in place).
- I/O outcomes (running the dmidecode binary, an HTTP exchange) are
  inductive environment values passed to the embedded functions.
- nil-pointer guard branches of the source act on values that cannot be
  represented in the embedding (the structures are not optional here),
  so those branches drop out.
-/

namespace SCAgent

/-! ### Identity resolver: getVMIDFromDMIDecode (pkg/config/config.go lines 131-171)

The source runs the dmidecode binary at up to three paths in order.
Each run either hits the shared 5-second deadline (the function then
returns the empty string at once), fails (try the next path), or yields
an output string that is trimmed and checked against the sentinel
values. A ProbeResult is the outcome of one such run. -/

inductive ProbeResult where
  | timeout
  | failure
  | output (s : String)
deriving DecidableEq, Repr

/-- ASCII whitespace, the relevant fragment of the character class that
strings.TrimSpace removes. -/
def isSpaceChar (c : Char) : Bool :=
  c = ' ' || c = '\t' || c = '\n' ||
    c = Char.ofNat 11 || c = Char.ofNat 12 || c = '\r'

/-- Model of strings.TrimSpace: drop whitespace from both ends. -/
def trimSpace (s : String) : String :=
  ⟨((s.data.dropWhile isSpaceChar).reverse.dropWhile isSpaceChar).reverse⟩

/-- Character-list core of the model of strings.HasPrefix. -/
def startsWithChars : List Char → List Char → Bool
  | _, [] => true
  | [], _ :: _ => false
  | c :: cs, p :: ps => c = p && startsWithChars cs ps

/-- Model of strings.HasPrefix s p. -/
def startsWithStr (s p : String) : Bool :=
  startsWithChars s.data p.data

/-- ASCII lowering of one character, the fragment of strings.ToLower
the log levels exercise. -/
def asciiLower (c : Char) : Char :=
  if 'A' ≤ c ∧ c ≤ 'Z' then Char.ofNat (c.toNat + 32) else c

/-- Model of strings.ToLower. -/
def toLowerStr (s : String) : String :=
  ⟨s.data.map asciiLower⟩

/-- Sentinel check from the source: the trimmed dmidecode output is
accepted unless it is empty, a Not Settable or Not Specified marker, or
begins with the all-zero UUID prefix. -/
def isValidVMID (v : String) : Bool :=
  v ≠ "" && v ≠ "Not Settable" && v ≠ "Not Specified" &&
    !(startsWithStr v "00000000-0000-0000")

/-- Embedding of getVMIDFromDMIDecode: walk the probe outcomes in path
order; a deadline hit returns the empty string immediately, a failed run
moves on, and an output is trimmed and returned when it passes the
sentinel check. The empty string is returned when no probe produced a
valid value. -/
def getVMIDFromDMIDecode : List ProbeResult → String
  | [] => ""
  | .timeout :: _ => ""
  | .failure :: rest => getVMIDFromDMIDecode rest
  | .output s :: rest =>
      if isValidVMID (trimSpace s) then trimSpace s else getVMIDFromDMIDecode rest

/-- Environment for the identity claim: the dmidecode probe outcomes
together with the fallback sources the specification names. Only the
probes are consulted by the code under src/pkg/config. -/
structure IdentityEnv where
  probes : List ProbeResult
  machineId : String
  bootId : String
  hostname : String
deriving DecidableEq

/-- Resolver as the claim describes it (spec wording, for comparison
with the source embedding): firmware-UUID probes first, then the
trimmed systemd machine identifier if non-empty, then the trimmed
kernel boot identifier if non-empty, then the network name of the
host. -/
def resolveIdentityClaimed (env : IdentityEnv) : String :=
  let fw := getVMIDFromDMIDecode env.probes
  if fw ≠ "" then fw
  else if trimSpace env.machineId ≠ "" then trimSpace env.machineId
  else if trimSpace env.bootId ≠ "" then trimSpace env.bootId
  else env.hostname

/-- Probe outcome that the loop skips without returning: a failed run,
or an output whose trimmed value is rejected by the sentinel check. -/
def probeSkipped : ProbeResult → Bool
  | .timeout => false
  | .failure => true
  | .output s => !(isValidVMID (trimSpace s))

/-- Probe outcome that cannot yield a value: failed, timed out, or
rejected output. -/
def probeRejected : ProbeResult → Bool
  | .timeout => true
  | .failure => true
  | .output s => !(isValidVMID (trimSpace s))

/-! ### Write client: shouldRetry, parseRetryAfter, sendWithRetry
(pkg/clients/tsclient/client.go, src/unnamed/part_006) -/

/-- Status codes the source retries: 429, 500, 502, 503, 504. -/
def shouldRetry (statusCode : Nat) : Bool :=
  match statusCode with
  | 429 | 500 | 502 | 503 | 504 => true
  | _ => false

/-- Forms a Retry-After header value can take, as the source parse
distinguishes them: missing, an integer number of delta-seconds (the
strconv.Atoi branch), an HTTP-date (the http.ParseTime branch, carried
as an absolute instant in ms), or text neither parser accepts. -/
inductive RetryAfterHeader where
  | absent
  | seconds (n : Int)
  | httpDate (t : Int)
  | malformed
deriving DecidableEq

/-- Embedding of parseRetryAfter at instant now (ms): an integer value
is used only when positive (converted from seconds to ms); otherwise an
HTTP-date is used only when it lies in the future (the wait is the time
until it); every other case yields zero. A non-positive integer string
falls through to the date parser, which rejects it, hence zero. -/
def parseRetryAfter (now : Int) : RetryAfterHeader → Int
  | .absent => 0
  | .seconds n => if 0 < n then 1000 * n else 0
  | .httpDate t => if 0 < t - now then t - now else 0
  | .malformed => 0

/-- Wait chosen before a retry in sendWithRetry: the stored RetryAfter
duration of the last response when positive, the configured base delay
otherwise (also when no response has been seen yet). -/
def computeWait (retryDelay : Int) : Option Int → Int
  | some ra => if 0 < ra then ra else retryDelay
  | none => retryDelay

/-- Outcome of one HTTP attempt: a transport error (no response), or a
response with its status code and its already-parsed RetryAfter
duration. -/
inductive Attempt where
  | connError
  | response (status : Nat) (retryAfter : Int)
deriving DecidableEq

/-- An attempt after which the loop continues: a transport error or a
retryable status. -/
def attemptRetriable : Attempt → Bool
  | .connError => true
  | .response s _ => shouldRetry s

/-- Result of a run of the retry loop: how many attempts were made, the
waits taken before each retry, and the status of the response the loop
returned (none when the attempt budget was exhausted). -/
structure RunResult where
  attempts : Nat
  waits : List Int
  result : Option Nat
deriving DecidableEq, Repr

/-- One unrolling of the sendWithRetry loop body. The environment env
gives the outcome of each successive attempt. first is true on the very
first iteration (no wait happens there); lastRA is the RetryAfter
duration of the last response seen, mirroring the lastResponse variable
of the source. fuel is the number of loop iterations left
(maxRetries + 1 - iterations done). Context cancellation is not
modelled; it only ends the loop earlier. -/
def sendLoop (retryDelay : Int) : (env : Nat → Attempt) → (first : Bool) →
    (lastRA : Option Int) → (fuel : Nat) → RunResult
  | _, _, _, 0 => ⟨0, [], none⟩
  | env, first, lastRA, fuel + 1 =>
      let w : List Int := if first then [] else [computeWait retryDelay lastRA]
      match env 0 with
      | .connError =>
          let r := sendLoop retryDelay (fun j => env (j + 1)) false lastRA fuel
          ⟨r.attempts + 1, w ++ r.waits, r.result⟩
      | .response s ra =>
          if shouldRetry s then
            let r := sendLoop retryDelay (fun j => env (j + 1)) false (some ra) fuel
            ⟨r.attempts + 1, w ++ r.waits, r.result⟩
          else ⟨1, w, some s⟩

/-- Embedding of sendWithRetry: run the loop with maxRetries + 1
iterations available, starting with no previous response. -/
def sendWithRetry (maxRetries : Nat) (retryDelay : Int) (env : Nat → Attempt) : RunResult :=
  sendLoop retryDelay env true none (maxRetries + 1)

/-- Client configuration fields relevant to construction
(ClientConfig in the source; durations in ms). -/
structure TSClientConfig where
  timeout : Int
  maxRetries : Int
  retryDelay : Int
deriving DecidableEq

/-- Client state produced by construction. -/
structure TSClient where
  timeout : Int
  maxRetries : Int
  retryDelay : Int
deriving DecidableEq, Repr

def DefaultTimeout : Int := 30000
def DefaultMaxRetries : Int := 3
def DefaultRetryDelay : Int := 5000

/-- Embedding of NewClient: a zero timeout or retry delay and a
non-positive maxRetries are replaced by the package defaults. -/
def NewClient (config : TSClientConfig) : TSClient :=
  { timeout := if config.timeout = 0 then DefaultTimeout else config.timeout
    maxRetries := if config.maxRetries ≤ 0 then DefaultMaxRetries else config.maxRetries
    retryDelay := if config.retryDelay = 0 then DefaultRetryDelay else config.retryDelay }

/-- Embedding of SetMaxRetries: only non-negative values are stored. -/
def SetMaxRetries (c : TSClient) (maxRetries : Int) : TSClient :=
  if 0 ≤ maxRetries then { c with maxRetries := maxRetries } else c

/-! ### Configuration validation (pkg/config/config.go validate) -/

/-- The per-collector enable flags of CollectorConfig. -/
structure CollectorConfig where
  processes : Bool
  cpu : Bool
  cpuFreq : Bool
  loadAvg : Bool
  memory : Bool
  vmStat : Bool
  disk : Bool
  diskStats : Bool
  filesystem : Bool
  network : Bool
  netDev : Bool
  netStat : Bool
  sockstat : Bool
  uname : Bool
  time : Bool
  uptime : Bool
  entropy : Bool
  interrupts : Bool
  thermal : Bool
  pressure : Bool
  schedstat : Bool
deriving DecidableEq, Repr

/-- CollectorConfig with every flag false (the Go zero value). -/
def emptyCollectorConfig : CollectorConfig :=
  ⟨false, false, false, false, false, false, false, false, false, false, false,
   false, false, false, false, false, false, false, false, false, false⟩

/-- CollectorConfig with every flag true (the DefaultConfig value). -/
def defaultCollectorConfig : CollectorConfig :=
  ⟨true, true, true, true, true, true, true, true, true, true, true,
   true, true, true, true, true, true, true, true, true, true⟩

/-- The Config fields validate looks at (durations in ms). -/
structure Config where
  collectionInterval : Int
  httpTimeout : Int
  metadataServiceEndpoint : String
  vmID : String
  maxRetries : Int
  retryInterval : Int
  logLevel : String
  collectors : CollectorConfig
deriving DecidableEq

/-- Embedding of hasEnabledCollectors: the disjunction of all flags. -/
def hasEnabledCollectors (c : Config) : Bool :=
  let cs := c.collectors
  cs.processes || cs.cpu || cs.cpuFreq || cs.loadAvg ||
    cs.memory || cs.vmStat || cs.disk || cs.diskStats ||
    cs.filesystem || cs.network || cs.netDev || cs.netStat ||
    cs.sockstat || cs.uname || cs.time || cs.uptime ||
    cs.entropy || cs.interrupts || cs.thermal || cs.pressure ||
    cs.schedstat

def validLogLevels : List String :=
  ["debug", "info", "warn", "error", "fatal", "panic"]

/-- Embedding of validate, preserving the order of the checks. A zero
maxRetries passes: only negative values are rejected. -/
def validate (c : Config) : Except String Unit :=
  if c.collectionInterval ≤ 0 then .error "collection_interval must be positive"
  else if c.httpTimeout ≤ 0 then .error "http_timeout must be positive"
  else if c.vmID = "" then .error "vm_id cannot be determined"
  else if c.maxRetries < 0 then .error "max_retries cannot be negative"
  else if c.retryInterval ≤ 0 then .error "retry_interval must be positive"
  else if !(validLogLevels.contains (toLowerStr c.logLevel)) then .error "invalid log_level"
  else if !(hasEnabledCollectors c) then .error "at least one collector must be enabled"
  else .ok ()

/-! ### Collector registry construction (pkg/collector/node.go NewSystemCollector)

The constructor first initializes procfs (its availability is the
procfsOk parameter), then unconditionally registers the Go runtime and
process collectors, then registers one collector per enabled flag (the
addXxx helpers in the source always return nil, so a set flag always
enables its collector), and finally errors when the enabled set is
empty. The enabled set is modelled as the list of its keys in insertion
order. -/
def NewSystemCollector (cfg : CollectorConfig) (procfsOk : Bool) :
    Except String (List String) :=
  if !procfsOk then .error "failed to initialize procfs"
  else
    let enabled := ["go", "process"]
      ++ (if cfg.cpu then ["cpu"] else [])
      ++ (if cfg.memory then ["memory"] else [])
      ++ (if cfg.loadAvg then ["loadavg"] else [])
      ++ (if cfg.diskStats then ["diskstats"] else [])
      ++ (if cfg.netDev then ["network"] else [])
      ++ (if cfg.filesystem then ["filesystem"] else [])
    if enabled.isEmpty then .error "no collectors enabled" else .ok enabled

/-! ### Metadata token cache (pkg/clients/metadata, src/unnamed/part_005) -/

/-- The JSON body of a metadata reply. -/
structure TokenResponse where
  token : String
  cloudAPIUrl : String
deriving DecidableEq, Repr

/-- Outcome of the HTTP exchange inside fetchAuthToken: a transport
error, or a response with its status code and the token body when the
JSON unmarshal succeeds. -/
inductive FetchOutcome where
  | connError
  | response (status : Nat) (parsed : Option TokenResponse)
deriving DecidableEq

/-- TokenCacheLifetime: 30 minutes, in ms. -/
def TokenCacheLifetime : Int := 1800000

/-- The mutable fields of the metadata Client. -/
structure MetadataClient where
  cachedToken : String
  cachedAPIURL : String
  tokenExpiry : Int
  tokenLifetime : Int
deriving DecidableEq, Repr

/-- Embedding of NewClient for the metadata package: empty cache, zero
expiry instant, lifetime set to TokenCacheLifetime. -/
def NewMetadataClient : MetadataClient :=
  { cachedToken := "", cachedAPIURL := "", tokenExpiry := 0,
    tokenLifetime := TokenCacheLifetime }

/-- Embedding of fetchAuthToken: a transport error fails; a status
other than 200 fails; a body that does not unmarshal fails; an empty
token field fails; otherwise the parsed body is returned. -/
def fetchAuthToken (outcome : FetchOutcome) : Except String TokenResponse :=
  match outcome with
  | .connError => .error "failed to fetch auth token"
  | .response status parsed =>
      if status ≠ 200 then .error "metadata service returned error status"
      else
        match parsed with
        | none => .error "failed to unmarshal token response"
        | some tr =>
            if tr.token = "" then .error "received empty token from metadata service"
            else .ok tr

/-- Embedding of GetAuthToken at instant now (ms). When a non-empty
token is cached and now is before its expiry, the cached token is
returned and the state is untouched (the fetch outcome is never
consulted). Otherwise the fetch runs; on success token and URL are
cached with expiry = now + tokenLifetime. The double-checked
read-write-lock pattern of the source collapses to the single check in
this sequential model. -/
def GetAuthToken (c : MetadataClient) (now : Int) (outcome : FetchOutcome) :
    Except String String × MetadataClient :=
  if c.cachedToken ≠ "" ∧ now < c.tokenExpiry then (.ok c.cachedToken, c)
  else
    match fetchAuthToken outcome with
    | .error e => (.error e, c)
    | .ok tr =>
        (.ok tr.token,
          { c with cachedToken := tr.token, cachedAPIURL := tr.cloudAPIUrl,
                   tokenExpiry := now + c.tokenLifetime })

/-- Embedding of InvalidateCache: clear token, URL and expiry. -/
def InvalidateCache (c : MetadataClient) : MetadataClient :=
  { c with cachedToken := "", cachedAPIURL := "", tokenExpiry := 0 }

/-! ### Metric data model (github.com/prometheus/client_model dto, as
the aggregator and decorator use it)

V stands for float64; see the module comment. The family type is the
string rendering of the dto enum, exactly what processMetric switches
on. -/

structure LabelPair where
  name : String
  value : String
deriving DecidableEq, Repr

structure Bucket (V : Type) where
  cumulativeCount : Nat
  upperBound : V
deriving DecidableEq, Repr

structure Histogram (V : Type) where
  sampleCount : Nat
  sampleSum : V
  bucket : List (Bucket V)
deriving DecidableEq, Repr

structure Quantile (V : Type) where
  quantile : V
  value : V
deriving DecidableEq, Repr

structure Summary (V : Type) where
  sampleCount : Nat
  sampleSum : V
  quantile : List (Quantile V)
deriving DecidableEq, Repr

structure Metric (V : Type) where
  label : List LabelPair
  gauge : Option V
  counter : Option V
  summary : Option (Summary V)
  untyped : Option V
  histogram : Option (Histogram V)
  timestampMs : Option Int
deriving DecidableEq, Repr

structure MetricFamily (V : Type) where
  name : String
  help : String
  type : String
  metric : List (Metric V)
deriving DecidableEq, Repr

/-- The wire record MetricWithValue. Its labels field is a Go map,
modelled as an association list with unique keys by construction. -/
structure MetricWithValue (V : Type) where
  name : String
  labels : List (String × String)
  value : V
  timestamp : Int
  type : String
deriving DecidableEq, Repr

/-- Go map store m[k] = v on the association-list model: overwrite the
value in place when the key is present, append otherwise. -/
def mapSet (m : List (String × String)) (k v : String) : List (String × String) :=
  if m.any (fun p => p.1 = k) then m.map (fun p => if p.1 = k then (k, v) else p)
  else m ++ [(k, v)]

/-- Label extraction at the top of processMetric: pour the LabelPair
list into a map (a later pair with the same name overwrites). -/
def labelsOf (ps : List LabelPair) : List (String × String) :=
  ps.foldl (fun m p => mapSet m p.name p.value) []

/-! ### Aggregator (pkg/aggregate/aggregate.go) -/

section Aggregate

variable {V : Type}

/-- Embedding of processMetric. fmtG renders a value the way the
fmt.Sprintf percent-g verb does; ofNat is the uint64-to-float64
conversion applied to bucket and sample counts. The switch on the
family type string is an if-chain here; the nil-metric guard cannot
arise. Each branch first checks the payload pointer for the kind
(a missing payload yields no records), exactly as the source does. -/
def processMetric (fmtG : V → String) (ofNat : Nat → V)
    (familyName familyType : String) (m : Metric V) (timestamp : Int) :
    Except String (List (MetricWithValue V)) :=
  let labels := labelsOf m.label
  let metricTimestamp := m.timestampMs.getD timestamp
  if familyType = "COUNTER" then
    .ok (match m.counter with
      | some v => [⟨familyName, labels, v, metricTimestamp, "counter"⟩]
      | none => [])
  else if familyType = "GAUGE" then
    .ok (match m.gauge with
      | some v => [⟨familyName, labels, v, metricTimestamp, "gauge"⟩]
      | none => [])
  else if familyType = "HISTOGRAM" then
    .ok (match m.histogram with
      | some h =>
          (h.bucket.map fun b =>
            ⟨familyName ++ "_bucket", mapSet labels "le" (fmtG b.upperBound),
             ofNat b.cumulativeCount, metricTimestamp, "counter"⟩)
          ++ [⟨familyName ++ "_count", labels, ofNat h.sampleCount,
               metricTimestamp, "counter"⟩,
              ⟨familyName ++ "_sum", labels, h.sampleSum,
               metricTimestamp, "counter"⟩]
      | none => [])
  else if familyType = "SUMMARY" then
    .ok (match m.summary with
      | some s =>
          (s.quantile.map fun q =>
            ⟨familyName, mapSet labels "quantile" (fmtG q.quantile),
             q.value, metricTimestamp, "gauge"⟩)
          ++ [⟨familyName ++ "_count", labels, ofNat s.sampleCount,
               metricTimestamp, "counter"⟩,
              ⟨familyName ++ "_sum", labels, s.sampleSum,
               metricTimestamp, "counter"⟩]
      | none => [])
  else if familyType = "UNTYPED" then
    .ok (match m.untyped with
      | some v => [⟨familyName, labels, v, metricTimestamp, "untyped"⟩]
      | none => [])
  else .error ("unsupported metric type: " ++ familyType)

/-- The loop of processFamily over the metrics of one family,
concatenating the records and propagating the first error. -/
def processMetrics (fmtG : V → String) (ofNat : Nat → V)
    (familyName familyType : String) (ms : List (Metric V)) (timestamp : Int) :
    Except String (List (MetricWithValue V)) :=
  match ms with
  | [] => .ok []
  | m :: rest =>
      match processMetric fmtG ofNat familyName familyType m timestamp with
      | .error e => .error e
      | .ok recs =>
          match processMetrics fmtG ofNat familyName familyType rest timestamp with
          | .error e => .error e
          | .ok more => .ok (recs ++ more)

/-- Embedding of processFamily (the nil-family guard cannot arise). -/
def processFamily (fmtG : V → String) (ofNat : Nat → V)
    (fam : MetricFamily V) (timestamp : Int) :
    Except String (List (MetricWithValue V)) :=
  processMetrics fmtG ofNat fam.name fam.type fam.metric timestamp

/-- Embedding of Aggregate. The tick instant timestamp is the
time.Now().UnixMilli() captured once at the top of the source function
and passed to every family. The empty input short-circuits to an empty
output, as in the source. -/
def Aggregate (fmtG : V → String) (ofNat : Nat → V)
    (fams : List (MetricFamily V)) (timestamp : Int) :
    Except String (List (MetricWithValue V)) :=
  match fams with
  | [] => .ok []
  | fam :: rest =>
      match processFamily fmtG ofNat fam timestamp with
      | .error e => .error e
      | .ok recs =>
          match Aggregate fmtG ofNat rest timestamp with
          | .error e => .error e
          | .ok more => .ok (recs ++ more)

/-- Embedding of labelFingerprint: empty map gives the empty string;
otherwise the keys are sorted ascending and the k=v parts are joined
with commas. Key lookup replaces Go map indexing (keys are unique by
construction). -/
def labelFingerprint (labels : List (String × String)) : String :=
  if labels.isEmpty then ""
  else
    let keys := (labels.map Prod.fst).insertionSort (· ≤ ·)
    String.intercalate "," (keys.map fun k => k ++ "=" ++ ((labels.lookup k).getD ""))

/-- The ordering SortMetrics establishes: by name, then by label
fingerprint (the reflexive closure of the strict less function the
source hands to sort.Slice). -/
def metricLE (a b : MetricWithValue V) : Prop :=
  a.name < b.name ∨ (a.name = b.name ∧ labelFingerprint a.labels ≤ labelFingerprint b.labels)

instance : DecidableRel (@metricLE V) := fun a b => by
  unfold metricLE; infer_instance

instance : IsTotal (MetricWithValue V) metricLE := by
  constructor
  intro a b
  rcases lt_trichotomy a.name b.name with h | h | h
  · exact Or.inl (Or.inl h)
  · rcases le_total (labelFingerprint a.labels) (labelFingerprint b.labels) with hf | hf
    · exact Or.inl (Or.inr ⟨h, hf⟩)
    · exact Or.inr (Or.inr ⟨h.symm, hf⟩)
  · exact Or.inr (Or.inl h)

instance : IsTrans (MetricWithValue V) metricLE := by
  constructor
  intro a b c hab hbc
  rcases hab with hab | ⟨hab, fab⟩
  · rcases hbc with hbc | ⟨hbc, _⟩
    · exact Or.inl (hab.trans hbc)
    · exact Or.inl (hbc ▸ hab)
  · rcases hbc with hbc | ⟨hbc, fbc⟩
    · exact Or.inl (hab ▸ hbc)
    · exact Or.inr ⟨hab.trans hbc, fab.trans fbc⟩

/-- Embedding of SortMetrics: sort.Slice sorts the records by the given
comparison; insertion sort realizes that contract here. -/
def SortMetrics (l : List (MetricWithValue V)) : List (MetricWithValue V) :=
  l.insertionSort metricLE

end Aggregate

/-! ### Decorator (pkg/decorator, second part of pkg/pipeline/processor.go) -/

section Decorator

variable {V : Type}

/-- Embedding of decorateMetric: build a fresh metric sharing the
payload fields, whose label list is a copy of the input labels followed
by the vm_id pair and one pair per entry of the static label map of the
operator (modelled as an association list). -/
def decorateMetric (vmID : String) (staticLabels : List (String × String))
    (m : Metric V) : Metric V :=
  { label := m.label.map (fun l => ⟨l.name, l.value⟩)
      ++ [⟨"vm_id", vmID⟩]
      ++ staticLabels.map (fun kv => ⟨kv.1, kv.2⟩)
    gauge := m.gauge
    counter := m.counter
    summary := m.summary
    untyped := m.untyped
    histogram := m.histogram
    timestampMs := m.timestampMs }

/-- Embedding of decorateFamily: a fresh family with the same name,
help and type, each metric decorated. -/
def decorateFamily (vmID : String) (staticLabels : List (String × String))
    (fam : MetricFamily V) : MetricFamily V :=
  { name := fam.name, help := fam.help, type := fam.type,
    metric := fam.metric.map (decorateMetric vmID staticLabels) }

/-- Embedding of Decorate: every family decorated, in order. The
nil-guard error paths of the source cannot arise here, so the function
is total; it never touches the input families (the embedding is pure,
matching the deep-copy discipline of the source). -/
def Decorate (vmID : String) (staticLabels : List (String × String))
    (fams : List (MetricFamily V)) : List (MetricFamily V) :=
  fams.map (decorateFamily vmID staticLabels)

end Decorator

/-! ## Theorems -/

/-! ### C1: identity resolution order -/

/-- Concrete environment refuting the fallback part of the claim: every
dmidecode probe fails and the machine identifier file holds a non-empty
value. -/
def identityEnvCounterexample : IdentityEnv :=
  { probes := [.failure, .failure, .failure],
    machineId := "abc123\n", bootId := "", hostname := "" }

/-- C1 counterexample: when every firmware-UUID probe fails and the
machine-id file is non-empty, the resolver as the claim describes it
would return the trimmed machine-id abc123, but getVMIDFromDMIDecode
returns the empty string: the code never reads the machine-id file. -/
theorem c1_machineId_counterexample :
    getVMIDFromDMIDecode identityEnvCounterexample.probes = "" ∧
    resolveIdentityClaimed identityEnvCounterexample = "abc123" ∧
    ("" : String) ≠ "abc123" := by
  refine ⟨rfl, by decide, by decide⟩

/-- C1 (amended): the identity resolver probes only the firmware-UUID
tool; it returns the trimmed output of the first probe that passes the
sentinel check when all earlier probes failed or produced rejected
values, and it returns the empty string whenever every probe fails,
times out or is rejected, never consulting the machine-id file, the
boot-id file or the hostname. -/
theorem identityResolver_amended :
    (∀ (pre post : List ProbeResult) (out : String),
        (∀ r ∈ pre, probeSkipped r = true) →
        isValidVMID (trimSpace out) = true →
        getVMIDFromDMIDecode (pre ++ .output out :: post) = trimSpace out) ∧
    (∀ probes : List ProbeResult,
        (∀ r ∈ probes, probeRejected r = true) →
        getVMIDFromDMIDecode probes = "") := by
  constructor
  · intro pre post out hpre hout
    induction pre with
    | nil => simp [getVMIDFromDMIDecode, hout]
    | cons r rest ih =>
        have hr := hpre r (by simp)
        have hrest : ∀ x ∈ rest, probeSkipped x = true :=
          fun x hx => hpre x (by simp [hx])
        cases r with
        | timeout => simp [probeSkipped] at hr
        | failure => simpa [getVMIDFromDMIDecode] using ih hrest
        | output s =>
            have hs : isValidVMID (trimSpace s) = false := by
              simpa [probeSkipped] using hr
            simpa [getVMIDFromDMIDecode, hs] using ih hrest
  · intro probes hall
    induction probes with
    | nil => rfl
    | cons r rest ih =>
        have hr := hall r (by simp)
        have hrest : ∀ x ∈ rest, probeRejected x = true :=
          fun x hx => hall x (by simp [hx])
        cases r with
        | timeout => rfl
        | failure => simpa [getVMIDFromDMIDecode] using ih hrest
        | output s =>
            have hs : isValidVMID (trimSpace s) = false := by
              simpa [probeRejected] using hr
            simpa [getVMIDFromDMIDecode, hs] using ih hrest

/-- C1 witness: a failed probe followed by a valid UUID output resolves
to the trimmed UUID, and a run whose probes all fail or yield the Not
Specified sentinel resolves to the empty string. -/
theorem identityResolver_amended_witness :
    getVMIDFromDMIDecode
        [.failure, .output " 123e4567-e89b-12d3-a456-426614174000\n"] =
      "123e4567-e89b-12d3-a456-426614174000" ∧
    getVMIDFromDMIDecode [.failure, .output "Not Specified"] = "" := by
  constructor
  · exact identityResolver_amended.1 [.failure] []
      " 123e4567-e89b-12d3-a456-426614174000\n" (by decide) (by decide)
  · exact identityResolver_amended.2 [.failure, .output "Not Specified"] (by decide)

/-! ### C9: collector registry construction -/

/-- C9: with every configuration flag disabled and procfs available,
NewSystemCollector does not fail; it returns a registry whose enabled
set holds the unconditionally registered go and process collectors, so
the no-collectors-enabled failure branch is unreachable. The package
test file expects an error for this very input. -/
theorem newSystemCollector_emptyConfig :
    NewSystemCollector emptyCollectorConfig true = .ok ["go", "process"] := rfl

/-! ### C10: zero configured retries is silently replaced at client
construction -/

/-- A configuration with max_retries 0 that passes validation. -/
def zeroRetriesConfig : Config :=
  { collectionInterval := 30000, httpTimeout := 30000,
    metadataServiceEndpoint := "http://169.254.169.254/metadata/v1/auth-token",
    vmID := "123e4567-e89b-12d3-a456-426614174000",
    maxRetries := 0, retryInterval := 5000, logLevel := "info",
    collectors := defaultCollectorConfig }

/-- The client built from that configuration. -/
def zeroRetriesClient : TSClient :=
  NewClient { timeout := 30000, maxRetries := zeroRetriesConfig.maxRetries,
              retryDelay := 5000 }

/-- C10: validation accepts max_retries = 0, yet NewClient replaces the
non-positive MaxRetries by the default 3, so a send under that client
makes up to 4 attempts; only SetMaxRetries can store 0. -/
theorem maxRetriesZero_defaulted :
    validate zeroRetriesConfig = .ok () ∧
    zeroRetriesConfig.maxRetries = 0 ∧
    zeroRetriesClient.maxRetries = 3 ∧
    (sendWithRetry zeroRetriesClient.maxRetries.toNat 5000
        (fun _ => .connError)).attempts = 4 ∧
    (SetMaxRetries zeroRetriesClient 0).maxRetries = 0 :=
  ⟨rfl, rfl, rfl, rfl, rfl⟩

/-! ### C2: retry policy of the write client -/

/-- Attempt-count bound for the loop from any iteration on: at most the
remaining fuel. -/
theorem sendLoop_attempts_le (retryDelay : Int) :
    ∀ (fuel : Nat) (env : Nat → Attempt) (first : Bool) (lastRA : Option Int),
      (sendLoop retryDelay env first lastRA fuel).attempts ≤ fuel := by
  intro fuel
  induction fuel with
  | zero => intro env first lastRA; simp [sendLoop]
  | succ n ih =>
      intro env first lastRA
      cases henv : env 0 with
      | connError =>
          simp only [sendLoop, henv]
          exact Nat.succ_le_succ (ih _ _ _)
      | response s ra =>
          by_cases hs : shouldRetry s = true
          · simp only [sendLoop, henv, hs, if_true]
            exact Nat.succ_le_succ (ih _ _ _)
          · simp [sendLoop, henv, hs]

/-- When the loop returns a response, that response is not retriable,
it was produced by the last attempt made, and every earlier attempt was
retriable. -/
theorem sendLoop_result_some (retryDelay : Int) :
    ∀ (fuel : Nat) (env : Nat → Attempt) (first : Bool) (lastRA : Option Int) (s : Nat),
      (sendLoop retryDelay env first lastRA fuel).result = some s →
      1 ≤ (sendLoop retryDelay env first lastRA fuel).attempts ∧
      (∃ ra : Int,
        env ((sendLoop retryDelay env first lastRA fuel).attempts - 1) = .response s ra) ∧
      shouldRetry s = false ∧
      ∀ j : Nat, j < (sendLoop retryDelay env first lastRA fuel).attempts - 1 →
        attemptRetriable (env j) = true := by
  intro fuel
  induction fuel with
  | zero => intro env first lastRA s hs; simp [sendLoop] at hs
  | succ n ih =>
      intro env first lastRA s hs
      cases henv : env 0 with
      | connError =>
          simp only [sendLoop, henv] at hs ⊢
          obtain ⟨h1, ⟨ra, h2⟩, h3, h4⟩ := ih (fun j => env (j + 1)) false lastRA s hs
          refine ⟨Nat.le_add_left 1 _, ⟨ra, ?_⟩, h3, ?_⟩
          · have : (sendLoop retryDelay (fun j => env (j + 1)) false lastRA n).attempts - 1 + 1 =
                (sendLoop retryDelay (fun j => env (j + 1)) false lastRA n).attempts := by omega
            simpa [Nat.add_sub_cancel, this] using h2
          · intro j hj
            cases j with
            | zero => simp [attemptRetriable, henv]
            | succ k =>
                have hk : k < (sendLoop retryDelay (fun j => env (j + 1)) false lastRA n).attempts - 1 := by
                  simp only [Nat.add_sub_cancel] at hj; omega
                exact h4 k hk
      | response s0 ra0 =>
          by_cases hretry : shouldRetry s0 = true
          · simp only [sendLoop, henv, hretry, if_true] at hs ⊢
            obtain ⟨h1, ⟨ra, h2⟩, h3, h4⟩ := ih (fun j => env (j + 1)) false (some ra0) s hs
            refine ⟨Nat.le_add_left 1 _, ⟨ra, ?_⟩, h3, ?_⟩
            · have : (sendLoop retryDelay (fun j => env (j + 1)) false (some ra0) n).attempts - 1 + 1 =
                  (sendLoop retryDelay (fun j => env (j + 1)) false (some ra0) n).attempts := by omega
              simpa [Nat.add_sub_cancel, this] using h2
            · intro j hj
              cases j with
              | zero => simp [attemptRetriable, henv, hretry]
              | succ k =>
                  have hk : k < (sendLoop retryDelay (fun j => env (j + 1)) false (some ra0) n).attempts - 1 := by
                    simp only [Nat.add_sub_cancel] at hj; omega
                  exact h4 k hk
          · simp only [sendLoop, henv, hretry, if_false] at hs ⊢
            obtain rfl : s0 = s := by simpa using hs
            refine ⟨le_refl 1, ⟨ra0, by simpa using henv⟩, by simpa using hretry, ?_⟩
            intro j hj
            simp at hj

/-- When the loop exhausts its budget, every available attempt was made
and each one was retriable. -/
theorem sendLoop_result_none (retryDelay : Int) :
    ∀ (fuel : Nat) (env : Nat → Attempt) (first : Bool) (lastRA : Option Int),
      (sendLoop retryDelay env first lastRA fuel).result = none →
      (sendLoop retryDelay env first lastRA fuel).attempts = fuel ∧
      ∀ j : Nat, j < fuel → attemptRetriable (env j) = true := by
  intro fuel
  induction fuel with
  | zero =>
      intro env first lastRA _
      exact ⟨rfl, fun j hj => absurd hj (Nat.not_lt_zero j)⟩
  | succ n ih =>
      intro env first lastRA hs
      cases henv : env 0 with
      | connError =>
          simp only [sendLoop, henv] at hs ⊢
          obtain ⟨h1, h2⟩ := ih (fun j => env (j + 1)) false lastRA hs
          refine ⟨by omega, ?_⟩
          intro j hj
          cases j with
          | zero => simp [attemptRetriable, henv]
          | succ k => exact h2 k (by omega)
      | response s0 ra0 =>
          by_cases hretry : shouldRetry s0 = true
          · simp only [sendLoop, henv, hretry, if_true] at hs ⊢
            obtain ⟨h1, h2⟩ := ih (fun j => env (j + 1)) false (some ra0) hs
            refine ⟨by omega, ?_⟩
            intro j hj
            cases j with
            | zero => simp [attemptRetriable, henv, hretry]
            | succ k => exact h2 k (by omega)
          · simp only [sendLoop, henv, hretry, if_false] at hs
            simp at hs

/-- C2: a run of sendWithRetry makes at most 1 + maxRetries attempts;
when it returns a response, that final status is outside the retriable
set 429, 500, 502, 503, 504 (every other status, including any other
non-2xx, ends the loop at that attempt) and every attempt before the
last had a connection error or a retriable status; when it exhausts the
budget, all 1 + maxRetries attempts were made and each had a connection
error or a retriable status. -/
theorem sendWithRetry_spec (maxRetries : Nat) (retryDelay : Int) (env : Nat → Attempt) :
    (sendWithRetry maxRetries retryDelay env).attempts ≤ maxRetries + 1 ∧
    (∀ s : Nat, (sendWithRetry maxRetries retryDelay env).result = some s →
      (∃ ra : Int,
        env ((sendWithRetry maxRetries retryDelay env).attempts - 1) = .response s ra) ∧
      shouldRetry s = false ∧
      ∀ j : Nat, j < (sendWithRetry maxRetries retryDelay env).attempts - 1 →
        attemptRetriable (env j) = true) ∧
    ((sendWithRetry maxRetries retryDelay env).result = none →
      (sendWithRetry maxRetries retryDelay env).attempts = maxRetries + 1 ∧
      ∀ j : Nat, j ≤ maxRetries → attemptRetriable (env j) = true) := by
  refine ⟨sendLoop_attempts_le _ _ _ _ _, ?_, ?_⟩
  · intro s hs
    obtain ⟨-, h2, h3, h4⟩ :=
      sendLoop_result_some retryDelay (maxRetries + 1) env true none s hs
    exact ⟨h2, h3, h4⟩
  · intro hn
    obtain ⟨h1, h2⟩ := sendLoop_result_none retryDelay (maxRetries + 1) env true none hn
    exact ⟨h1, fun j hj => h2 j (Nat.lt_succ_of_le hj)⟩

/-- C2 witness: under an environment answering 503 then 400, the loop
returns the 400 on the second attempt; 400 is terminal while the 503
attempt was retriable. -/
theorem sendWithRetry_spec_witness :
    shouldRetry 400 = false ∧ attemptRetriable (.response 503 0) = true := by
  obtain ⟨-, hsome, -⟩ := sendWithRetry_spec 3 5000
    (fun i => if i = 0 then .response 503 0 else .response 400 0)
  obtain ⟨-, h3, h4⟩ := hsome 400 rfl
  refine ⟨h3, ?_⟩
  simpa using h4 0 (by decide)

/-! ### C8: inter-attempt wait and Retry-After -/

/-- Retry-After as the claim words it: a positive integer header names
that many seconds of wait, an HTTP-date in the future names the time
until it, and every other header value names no duration. -/
def retryAfterClaimed (now : Int) : RetryAfterHeader → Option Int
  | .seconds n => if 0 < n then some (1000 * n) else none
  | .httpDate t => if now < t then some (t - now) else none
  | .absent => none
  | .malformed => none

/-- After the first iteration, the wait at the head of a continuation
of the loop is computed from the stored last response. -/
theorem sendLoop_wait_head (retryDelay : Int) (env : Nat → Attempt)
    (lastRA : Option Int) (fuel : Nat) (hf : 0 < fuel) :
    (sendLoop retryDelay env false lastRA fuel).waits.head? =
      some (computeWait retryDelay lastRA) := by
  cases fuel with
  | zero => exact absurd hf (by simp)
  | succ n =>
      cases henv : env 0 with
      | connError => simp [sendLoop, henv]
      | response s ra =>
          by_cases hs : shouldRetry s = true
          · simp [sendLoop, henv, hs]
          · simp [sendLoop, henv, hs]

/-- C8: the wait before a retry equals the duration of a parsable
positive Retry-After header of the previous response (delta-seconds or
a future HTTP-date), and equals the configured base delay when the
header is absent, malformed, non-positive, or denotes an instant not in
the future, or when the previous attempt produced no response at all. -/
theorem retryWait_spec (retryDelay now : Int) (h : RetryAfterHeader)
    (k : Nat) (env : Nat → Attempt) (s : Nat) (ra : Int) :
    (∀ d : Int, retryAfterClaimed now h = some d →
      computeWait retryDelay (some (parseRetryAfter now h)) = d) ∧
    (retryAfterClaimed now h = none →
      computeWait retryDelay (some (parseRetryAfter now h)) = retryDelay) ∧
    (env 0 = .response s ra → shouldRetry s = true →
      (sendWithRetry (k + 1) retryDelay env).waits.head? =
        some (computeWait retryDelay (some ra))) ∧
    (env 0 = .connError →
      (sendWithRetry (k + 1) retryDelay env).waits.head? = some retryDelay) := by
  refine ⟨?_, ?_, ?_, ?_⟩
  · intro d hd
    cases h with
    | seconds n =>
        by_cases hn : 0 < n
        · have hd2 : (1000 : Int) * n = d := by simpa [retryAfterClaimed, hn] using hd
          subst hd2
          have hpos : (0 : Int) < 1000 * n := by positivity
          simp [parseRetryAfter, computeWait, hn, hpos]
        · simp [retryAfterClaimed, hn] at hd
    | httpDate t =>
        by_cases ht : now < t
        · have hd2 : t - now = d := by simpa [retryAfterClaimed, ht] using hd
          subst hd2
          have hpos : (0 : Int) < t - now := sub_pos.mpr ht
          simp [parseRetryAfter, computeWait, hpos]
        · simp [retryAfterClaimed, ht] at hd
    | absent => simp [retryAfterClaimed] at hd
    | malformed => simp [retryAfterClaimed] at hd
  · intro hd
    cases h with
    | seconds n =>
        have hn : ¬ 0 < n := by
          intro hn; simp [retryAfterClaimed, hn] at hd
        simp [parseRetryAfter, computeWait, hn]
    | httpDate t =>
        have ht : ¬ now < t := by
          intro ht; simp [retryAfterClaimed, ht] at hd
        have : ¬ (0 : Int) < t - now := fun hc => ht (by omega)
        simp [parseRetryAfter, computeWait, ht, this]
    | absent => simp [parseRetryAfter, computeWait]
    | malformed => simp [parseRetryAfter, computeWait]
  · intro henv hs
    have : sendWithRetry (k + 1) retryDelay env =
        sendLoop retryDelay env true none (k + 2) := rfl
    rw [this]
    simp only [sendLoop, henv, hs, if_true]
    simpa using sendLoop_wait_head retryDelay (fun j => env (j + 1)) (some ra) (k + 1) (by omega)
  · intro henv
    have : sendWithRetry (k + 1) retryDelay env =
        sendLoop retryDelay env true none (k + 2) := rfl
    rw [this]
    simp only [sendLoop, henv]
    simpa [computeWait] using
      sendLoop_wait_head retryDelay (fun j => env (j + 1)) none (k + 1) (by omega)

/-- C8 witness: a Retry-After of 2 seconds yields a 2000 ms wait, an
absent header falls back to the 5000 ms base delay, and after a first
attempt with a connection error the loop waits the base delay. -/
theorem retryWait_spec_witness :
    computeWait 5000 (some (parseRetryAfter 0 (.seconds 2))) = 2000 ∧
    computeWait 5000 (some (parseRetryAfter 0 .absent)) = 5000 ∧
    (sendWithRetry 1 5000 (fun _ => .connError)).waits.head? = some 5000 := by
  have h1 := retryWait_spec 5000 0 (.seconds 2) 0 (fun _ => .connError) 0 0
  have h2 := retryWait_spec 5000 0 .absent 0 (fun _ => .connError) 0 0
  exact ⟨h1.1 2000 rfl, h2.2.1 rfl, h1.2.2.2 rfl⟩

/-! ### C4: record ordering after SortMetrics -/

/-- C4: SortMetrics returns a permutation of the records that is sorted
ascending by the pair of name and label fingerprint, the fingerprint
being the comma-joined k=v rendering of the labels with keys in
ascending order (definition labelFingerprint). -/
theorem sortMetrics_sorted {V : Type} (l : List (MetricWithValue V)) :
    List.Perm (SortMetrics l) l ∧ List.Sorted metricLE (SortMetrics l) :=
  ⟨List.perm_insertionSort metricLE l, List.sorted_insertionSort metricLE l⟩

/-! ### C5: decoration -/

/-- Mapping the field-copy of decorateMetric over a label list is the
identity. -/
theorem map_labelCopy (ls : List LabelPair) :
    ls.map (fun l => (⟨l.name, l.value⟩ : LabelPair)) = ls := by
  induction ls with
  | nil => rfl
  | cons l rest ih => simp [ih]

/-- C5: Decorate returns a sequence of the same length and order; each
output family keeps its name, help and type; each output metric keeps
every input label pair in place and order, followed by the vm_id pair
bound to the identity and one pair per entry of the static label map,
with every payload field and the timestamp unchanged. The input is not
mutated: the embedding is a pure map over fresh structures. -/
theorem decorate_spec {V : Type} (vmID : String)
    (staticLabels : List (String × String)) (fams : List (MetricFamily V)) :
    (Decorate vmID staticLabels fams).length = fams.length ∧
    (∀ (i : Nat) (fam : MetricFamily V), fams[i]? = some fam →
      ∃ dfam : MetricFamily V, (Decorate vmID staticLabels fams)[i]? = some dfam ∧
        dfam.name = fam.name ∧ dfam.help = fam.help ∧ dfam.type = fam.type ∧
        dfam.metric.length = fam.metric.length ∧
        ∀ (j : Nat) (m : Metric V), fam.metric[j]? = some m →
          ∃ dm : Metric V, dfam.metric[j]? = some dm ∧
            dm.label = m.label ++ [⟨"vm_id", vmID⟩]
              ++ staticLabels.map (fun kv => ⟨kv.1, kv.2⟩) ∧
            dm.gauge = m.gauge ∧ dm.counter = m.counter ∧
            dm.summary = m.summary ∧ dm.untyped = m.untyped ∧
            dm.histogram = m.histogram ∧ dm.timestampMs = m.timestampMs) := by
  constructor
  · simp [Decorate]
  · intro i fam hfam
    refine ⟨decorateFamily vmID staticLabels fam, ?_, rfl, rfl, rfl, ?_, ?_⟩
    · simp [Decorate, hfam]
    · simp [decorateFamily]
    · intro j m hm
      refine ⟨decorateMetric vmID staticLabels m, ?_, ?_, rfl, rfl, rfl, rfl, rfl, rfl⟩
      · simp [decorateFamily, hm]
      · simp [decorateMetric, map_labelCopy]

/-- A concrete one-family input for the decoration witness. -/
def decorateInputEx : List (MetricFamily Int) :=
  [{ name := "m", help := "h", type := "GAUGE",
     metric := [{ label := [⟨"cpu", "0"⟩], gauge := some 7,
                  counter := none, summary := none, untyped := none,
                  histogram := none, timestampMs := none }] }]

/-- C5 witness: decorating a concrete one-family list produces the
expected label layout. -/
theorem decorate_spec_witness :
    ∃ dfam : MetricFamily Int,
      (Decorate "vm-1" [("env", "prod")] decorateInputEx)[0]? = some dfam ∧
      ∃ dm : Metric Int, dfam.metric[0]? = some dm ∧
        dm.label = [⟨"cpu", "0"⟩, ⟨"vm_id", "vm-1"⟩, ⟨"env", "prod"⟩] := by
  obtain ⟨-, hrest⟩ := decorate_spec "vm-1" [("env", "prod")] decorateInputEx
  obtain ⟨dfam, hdfam, -, -, -, -, hms⟩ := hrest 0 _ rfl
  obtain ⟨dm, hdm, hlab, -⟩ := hms 0 _ rfl
  exact ⟨dfam, hdfam, dm, hdm, by simpa using hlab⟩

/-! ### C3: histogram flattening -/

/-- C3: for a histogram sample with B buckets, processMetric succeeds
with exactly B + 2 records: record i (i < B) is named with the bucket
suffix, carries the labels of the sample plus le bound to the rendered
upper bound of bucket i, has type counter and the cumulative count as
value; record B is the count record and record B + 1 the sum record,
both counters carrying the original labels of the sample. -/
theorem histogram_flattening {V : Type} (fmtG : V → String) (ofNat : Nat → V)
    (familyName : String) (m : Metric V) (ts : Int) (h : Histogram V)
    (hm : m.histogram = some h) :
    ∃ out : List (MetricWithValue V),
      processMetric fmtG ofNat familyName "HISTOGRAM" m ts = .ok out ∧
      out.length = h.bucket.length + 2 ∧
      (∀ (i : Nat) (b : Bucket V), h.bucket[i]? = some b →
        out[i]? = some ⟨familyName ++ "_bucket",
          mapSet (labelsOf m.label) "le" (fmtG b.upperBound),
          ofNat b.cumulativeCount, m.timestampMs.getD ts, "counter"⟩) ∧
      out[h.bucket.length]? = some ⟨familyName ++ "_count", labelsOf m.label,
        ofNat h.sampleCount, m.timestampMs.getD ts, "counter"⟩ ∧
      out[h.bucket.length + 1]? = some ⟨familyName ++ "_sum", labelsOf m.label,
        h.sampleSum, m.timestampMs.getD ts, "counter"⟩ := by
  refine ⟨(h.bucket.map fun b =>
      (⟨familyName ++ "_bucket", mapSet (labelsOf m.label) "le" (fmtG b.upperBound),
        ofNat b.cumulativeCount, m.timestampMs.getD ts, "counter"⟩ : MetricWithValue V))
    ++ [⟨familyName ++ "_count", labelsOf m.label, ofNat h.sampleCount,
          m.timestampMs.getD ts, "counter"⟩,
        ⟨familyName ++ "_sum", labelsOf m.label, h.sampleSum,
          m.timestampMs.getD ts, "counter"⟩], ?_, ?_, ?_, ?_, ?_⟩
  · simp [processMetric, hm]
  · simp
  · intro i b hib
    have hlt : i < h.bucket.length := (List.getElem?_eq_some.mp hib).1
    simp only [List.getElem?_append, List.length_map]
    rw [if_pos hlt]
    simp [List.getElem?_map, hib]
  · rw [List.getElem?_append_right (by simp)]
    simp
  · rw [List.getElem?_append_right (by simp)]
    simp

/-- A concrete two-bucket histogram metric for the witness. -/
def histogramMetricEx : Metric Int :=
  { label := [⟨"vm_id", "vm-1"⟩], gauge := none, counter := none,
    summary := none, untyped := none,
    histogram := some { sampleCount := 5, sampleSum := 9,
                        bucket := [⟨2, 1⟩, ⟨5, 10⟩] },
    timestampMs := none }

/-- C3 witness: the two-bucket histogram flattens to four records. -/
theorem histogram_flattening_witness :
    ∃ out : List (MetricWithValue Int),
      processMetric (fun _ => "g") (fun n => (n : Int)) "req" "HISTOGRAM"
        histogramMetricEx 7 = .ok out ∧ out.length = 4 := by
  obtain ⟨out, h1, h2, -⟩ := histogram_flattening (fun _ => "g") (fun n => (n : Int))
    "req" histogramMetricEx 7 ⟨5, 9, [⟨2, 1⟩, ⟨5, 10⟩]⟩ rfl
  exact ⟨out, h1, by rw [h2]; rfl⟩

/-! ### C6: auth token caching -/

/-- A successful fetch never carries an empty token. -/
theorem fetchAuthToken_token_ne (o : FetchOutcome) (tr : TokenResponse)
    (h : fetchAuthToken o = .ok tr) : tr.token ≠ "" := by
  cases o with
  | connError => simp [fetchAuthToken] at h
  | response status parsed =>
      by_cases hst : status = 200
      · subst hst
        cases parsed with
        | none => simp [fetchAuthToken] at h
        | some tr0 =>
            by_cases htok : tr0.token = ""
            · simp [fetchAuthToken, htok] at h
            · have heq : tr0 = tr := by simpa [fetchAuthToken, htok] using h
              exact heq ▸ htok
      · simp [fetchAuthToken, hst] at h

/-- C6: after a call whose fetch succeeded with body tr, a second
GetAuthToken call less than the cache lifetime later returns the same
token from the cache, leaves the state unchanged, and never consults
its fetch outcome (o2 is arbitrary); the expiry stored by the fetch is
the fetch instant plus the lifetime, whose constructor default is
TokenCacheLifetime, thirty minutes. -/
theorem authToken_cached (c : MetadataClient) (t1 t2 : Int)
    (o1 o2 : FetchOutcome) (tr : TokenResponse)
    (hfetch : fetchAuthToken o1 = .ok tr)
    (hmiss : ¬(c.cachedToken ≠ "" ∧ t1 < c.tokenExpiry))
    (hsep : t2 < t1 + c.tokenLifetime) :
    (GetAuthToken c t1 o1).1 = .ok tr.token ∧
    (GetAuthToken c t1 o1).2.tokenExpiry = t1 + c.tokenLifetime ∧
    GetAuthToken (GetAuthToken c t1 o1).2 t2 o2 = (.ok tr.token, (GetAuthToken c t1 o1).2) ∧
    NewMetadataClient.tokenLifetime = 1800000 := by
  have hc1 : GetAuthToken c t1 o1 = (.ok tr.token,
      { c with cachedToken := tr.token, cachedAPIURL := tr.cloudAPIUrl,
               tokenExpiry := t1 + c.tokenLifetime }) := by
    unfold GetAuthToken
    rw [if_neg hmiss, hfetch]
  rw [hc1]
  refine ⟨rfl, rfl, ?_, rfl⟩
  unfold GetAuthToken
  rw [if_pos]
  exact ⟨fetchAuthToken_token_ne o1 tr hfetch, by simpa using hsep⟩

/-- C6 witness: starting from a fresh client, a fetch at instant 1000
caches the token tok; the call at instant 2000 returns the same token
with the state unchanged, even though its own fetch outcome is a
connection error. -/
theorem authToken_cached_witness :
    (GetAuthToken NewMetadataClient 1000 (.response 200 (some ⟨"tok", "url"⟩))).1 =
      .ok "tok" ∧
    GetAuthToken (GetAuthToken NewMetadataClient 1000
        (.response 200 (some ⟨"tok", "url"⟩))).2 2000 .connError =
      (.ok "tok",
        (GetAuthToken NewMetadataClient 1000 (.response 200 (some ⟨"tok", "url"⟩))).2) := by
  obtain ⟨h1, -, h3, -⟩ := authToken_cached NewMetadataClient 1000 2000
    (.response 200 (some ⟨"tok", "url"⟩)) .connError ⟨"tok", "url"⟩ rfl
    (by decide) (by decide)
  exact ⟨h1, h3⟩

/-! ### C7: record timestamps -/

/-- Every record processMetric emits for one sample carries the
effective timestamp of that sample: its own millisecond timestamp when
present, the tick instant otherwise. -/
theorem processMetric_timestamp {V : Type} (fmtG : V → String) (ofNat : Nat → V)
    (familyName familyType : String) (m : Metric V) (ts : Int)
    (out : List (MetricWithValue V))
    (hout : processMetric fmtG ofNat familyName familyType m ts = .ok out) :
    ∀ r ∈ out, r.timestamp = m.timestampMs.getD ts := by
  intro r hr
  unfold processMetric at hout
  split_ifs at hout
  · cases hc : m.counter with
    | none => rw [hc] at hout; simp at hout; subst hout; simp at hr
    | some v =>
        rw [hc] at hout
        simp at hout
        subst hout
        simp at hr
        subst hr; rfl
  · cases hc : m.gauge with
    | none => rw [hc] at hout; simp at hout; subst hout; simp at hr
    | some v =>
        rw [hc] at hout
        simp at hout
        subst hout
        simp at hr
        subst hr; rfl
  · cases hc : m.histogram with
    | none => rw [hc] at hout; simp at hout; subst hout; simp at hr
    | some hh =>
        rw [hc] at hout
        simp at hout
        subst hout
        rcases List.mem_append.mp hr with hmem | hmem
        · obtain ⟨b, -, rfl⟩ := List.mem_map.mp hmem
          rfl
        · simp at hmem
          rcases hmem with rfl | rfl <;> rfl
  · cases hc : m.summary with
    | none => rw [hc] at hout; simp at hout; subst hout; simp at hr
    | some ss =>
        rw [hc] at hout
        simp at hout
        subst hout
        rcases List.mem_append.mp hr with hmem | hmem
        · obtain ⟨q, -, rfl⟩ := List.mem_map.mp hmem
          rfl
        · simp at hmem
          rcases hmem with rfl | rfl <;> rfl
  · cases hc : m.untyped with
    | none => rw [hc] at hout; simp at hout; subst hout; simp at hr
    | some v =>
        rw [hc] at hout
        simp at hout
        subst hout
        simp at hr
        subst hr; rfl

/-- Lift of the timestamp property over the metrics of one family. -/
theorem processMetrics_timestamp {V : Type} (fmtG : V → String) (ofNat : Nat → V)
    (familyName familyType : String) :
    ∀ (ms : List (Metric V)) (ts : Int) (out : List (MetricWithValue V)),
      processMetrics fmtG ofNat familyName familyType ms ts = .ok out →
      ∀ r ∈ out, ∃ mm ∈ ms, r.timestamp = mm.timestampMs.getD ts := by
  intro ms
  induction ms with
  | nil =>
      intro ts out hout r hr
      simp [processMetrics] at hout
      subst hout
      simp at hr
  | cons m rest ih =>
      intro ts out hout r hr
      unfold processMetrics at hout
      cases h1 : processMetric fmtG ofNat familyName familyType m ts with
      | error e => rw [h1] at hout; simp at hout
      | ok recs =>
          rw [h1] at hout
          cases h2 : processMetrics fmtG ofNat familyName familyType rest ts with
          | error e => rw [h2] at hout; simp at hout
          | ok more =>
              rw [h2] at hout
              simp at hout
              subst hout
              rcases List.mem_append.mp hr with hmem | hmem
              · exact ⟨m, by simp,
                  processMetric_timestamp fmtG ofNat familyName familyType m ts recs h1 r hmem⟩
              · obtain ⟨mm, hmm, hts⟩ := ih ts more h2 r hmem
                exact ⟨mm, by simp [hmm], hts⟩

/-- Every record of an Aggregate run originates in some sample of some
family and carries the effective timestamp of that sample. -/
theorem aggregate_timestamp_mem {V : Type} (fmtG : V → String) (ofNat : Nat → V) :
    ∀ (fams : List (MetricFamily V)) (ts : Int) (out : List (MetricWithValue V)),
      Aggregate fmtG ofNat fams ts = .ok out →
      ∀ r ∈ out, ∃ fam ∈ fams, ∃ mm ∈ fam.metric, r.timestamp = mm.timestampMs.getD ts := by
  intro fams
  induction fams with
  | nil =>
      intro ts out hout r hr
      simp [Aggregate] at hout
      subst hout
      simp at hr
  | cons fam rest ih =>
      intro ts out hout r hr
      unfold Aggregate at hout
      cases h1 : processFamily fmtG ofNat fam ts with
      | error e => rw [h1] at hout; simp at hout
      | ok recs =>
          rw [h1] at hout
          cases h2 : Aggregate fmtG ofNat rest ts with
          | error e => rw [h2] at hout; simp at hout
          | ok more =>
              rw [h2] at hout
              simp at hout
              subst hout
              rcases List.mem_append.mp hr with hmem | hmem
              · obtain ⟨mm, hmm, hts⟩ := processMetrics_timestamp fmtG ofNat
                  fam.name fam.type fam.metric ts recs h1 r hmem
                exact ⟨fam, by simp, mm, hmm, hts⟩
              · obtain ⟨fam0, hfam0, mm, hmm, hts⟩ := ih ts more h2 r hmem
                exact ⟨fam0, by simp [hfam0], mm, hmm, hts⟩

/-- C7: every record processMetric emits for a sample has the sample
timestamp when the sample carries one and the tick instant otherwise;
hence over a whole Aggregate call, whose tick instant is chosen once
and shared, every output record either has the single tick timestamp or
the explicit timestamp of one of the input samples. -/
theorem record_timestamp_spec {V : Type} (fmtG : V → String) (ofNat : Nat → V) :
    (∀ (familyName familyType : String) (m : Metric V) (ts : Int)
        (out : List (MetricWithValue V)),
      processMetric fmtG ofNat familyName familyType m ts = .ok out →
      ∀ r ∈ out, r.timestamp = m.timestampMs.getD ts) ∧
    (∀ (fams : List (MetricFamily V)) (ts : Int) (out : List (MetricWithValue V)),
      Aggregate fmtG ofNat fams ts = .ok out →
      ∀ r ∈ out, r.timestamp = ts ∨
        ∃ fam ∈ fams, ∃ mm ∈ fam.metric, mm.timestampMs = some r.timestamp) := by
  constructor
  · exact fun familyName familyType m ts out hout =>
      processMetric_timestamp fmtG ofNat familyName familyType m ts out hout
  · intro fams ts out hout r hr
    obtain ⟨fam, hfam, mm, hmm, hts⟩ :=
      aggregate_timestamp_mem fmtG ofNat fams ts out hout r hr
    cases hcase : mm.timestampMs with
    | none => left; simpa [hcase] using hts
    | some t =>
        right
        rw [hcase] at hts
        simp at hts
        exact ⟨fam, hfam, mm, hmm, by rw [hcase, hts]⟩

/-- A concrete untimed counter metric for the timestamp witness. -/
def counterMetricEx : Metric Int :=
  { label := [⟨"a", "1"⟩], gauge := none, counter := some 5,
    summary := none, untyped := none, histogram := none, timestampMs := none }

/-- C7 witness: the record emitted for an untimed counter sample at
tick instant 7 carries timestamp 7. -/
theorem record_timestamp_spec_witness :
    (⟨"mname", [("a", "1")], 5, 7, "counter"⟩ : MetricWithValue Int).timestamp = 7 := by
  exact (record_timestamp_spec (fun _ : Int => "g") (fun n : Nat => (n : Int))).1
    "mname" "COUNTER" counterMetricEx 7 _ rfl _ (by decide)

end SCAgent
